import Mathlib

/-
Verification of the koolo pather core (internal/pather, package pather).

The Go source is shallowly embedded as executable Lean definitions:

  * machine integers are modelled by `Int`; Go's `/` on int is `Int.tdiv`
    (truncation toward zero);
  * Go float arithmetic (`float32` / `float64`) is modelled by exact
    rational arithmetic: every float expression the source builds is a
    rational with a fixed denominator (5, 10, 119 or 10^9 below), so the
    `int(...)` conversion (truncation toward zero) is `Int.tdiv` of the
    integer numerator by that denominator;
  * the side effects of a planning call (pointer moves, clicks, key
    presses, packet commands, sleeps) are collected into a `List Command`,
    in the order the Go code issues them;
  * the external d2go data types (collision grid, rooms, areas, the packet
    sender) are modelled by their query interfaces, as described in the
    design document;
  * the unbounded Go loops (`LineOfSight`, the room-ordering loop) take an
    explicit fuel argument; a theorem shows the canonical fuel is enough.
-/

namespace Pather

/-- World position, an immutable integer pair (d2go `data.Position`). -/
structure Position where
  X : Int
  Y : Int
deriving DecidableEq, Repr

/-- Area identifiers live in the external d2go package. We model the three
areas the source names explicitly, town areas, and an opaque remainder;
`IsTown` is the external town classification. -/
inductive AreaID where
  | FlayerJungle
  | LowerKurast
  | RiverOfFlame
  | Town (n : Nat)
  | Other (n : Nat)
deriving DecidableEq, Repr

/-- External town classification of an area (d2go `area.ID.IsTown`). -/
def AreaID.IsTown : AreaID → Bool
  | .Town _ => true
  | _ => false

/-- Collision grid, owned by the external snapshot provider. Modelled from
the spec: "rectangular grid of walkable/blocked flags with an origin offset";
the per-cell data (`CollisionGrid`, nil-able in Go) is modelled by an
optional walkability predicate, the bounding rectangle by offset and size. -/
structure Grid where
  CollisionGrid : Option (Position → Bool)
  OffsetX : Int
  OffsetY : Int
  Width : Int
  Height : Int

/-- Area data of the current area; `Grid` is a nil-able pointer in Go. -/
structure AreaData where
  Grid : Option Grid

/-- Walkability query on the area data (external d2go method): false when
the grid or its cell data is absent, otherwise the cell flag. -/
def AreaData.IsWalkable (ad : AreaData) (p : Position) : Bool :=
  match ad.Grid with
  | none => false
  | some g =>
    match g.CollisionGrid with
    | none => false
    | some f => f p

/-- Room of the current level (external d2go `data.Room`). Modelled from the
spec: "a named area with a centroid and a containment test"; we carry the
bounding rectangle. Go compares rooms by value (map keys), hence decidable
equality. -/
structure Room where
  X : Int
  Y : Int
  W : Int
  H : Int
deriving DecidableEq, Repr

/-- Centroid of a room (external d2go `Room.GetCenter`). -/
def Room.GetCenter (r : Room) : Position :=
  ⟨r.X + r.W.tdiv 2, r.Y + r.H.tdiv 2⟩

/-- Containment test of a room (external d2go `Room.IsInside`). -/
def Room.IsInside (r : Room) (p : Position) : Bool :=
  decide (r.X ≤ p.X ∧ p.X < r.X + r.W ∧ r.Y ≤ p.Y ∧ p.Y < r.Y + r.H)

/-- Go zero value `data.Room{}`. -/
def Room.empty : Room := ⟨0, 0, 0, 0⟩

/-- Player state used by the planner. -/
structure PlayerUnit where
  Position : Position
  Area : AreaID
  RightSkill : Nat

/-- The force-move key binding: first byte of Key1 and of Key2. -/
structure KeyBindings where
  ForceMoveKey1 : Nat
  ForceMoveKey2 : Nat

/-- Per-tick world snapshot (`game.Data`): the fields the pather reads.
`CanTeleport`, `PlayerCastDurationMs` and the town flag are snapshots of the
corresponding Go methods. -/
structure DataSnapshot where
  PlayerUnit : PlayerUnit
  AreaData : AreaData
  AreaOrigin : Position
  Rooms : List Room
  CanTeleport : Bool
  PlayerCastDurationMs : Int
  KeyBindings : KeyBindings

/-- Packet-casting configuration surface consumed by the pather. -/
structure PacketCastingConfig where
  UseForTeleport : Bool
  UseForSkillSelection : Bool

/-- Character configuration consumed by the pather. -/
structure Config where
  PacketCasting : PacketCastingConfig

/-- The optional protocol command sender, modelled by the observable outcome
of each call: whether `Teleport(pos)` errors and whether `SelectRightSkill`
errors. -/
structure PacketSender where
  teleportErr : Position → Bool
  selectRightSkillErr : Bool

/-- Window metrics (`game.Reader`): the viewport size. -/
structure GameReader where
  GameAreaSizeX : Int
  GameAreaSizeY : Int

/-- The pather with the state it reads (receiver of all planner methods). -/
structure PathFinder where
  gr : GameReader
  data : DataSnapshot
  cfg : Config
  packetSender : Option PacketSender

/-- Mouse buttons used by the input dispatcher. -/
inductive Button where
  | Left
  | Right
deriving DecidableEq, Repr

/-- One primitive effect issued by the planner through the external
interfaces, in issue order. `Teleport` is the protocol (packet) teleport
call; `SelectRightSkill` the protocol skill selection; the others are
simulated device input and delays. -/
inductive Command where
  | MovePointer (x y : Int)
  | Click (button : Button) (x y : Int)
  | PressKeyBinding
  | SelectRightSkill
  | Teleport (pos : Position)
  | SleepMs (ms : Int)
deriving DecidableEq, Repr

/-- The d2go teleport skill identifier (`skill.Teleport`). -/
def skillTeleport : Nat := 54

/-- A path: ordered positions from origin to destination. -/
def Path := List Position

/-- Modelled from the spec: "Path — ordered sequence of Positions from
origin to destination, inclusive; index 0 is the origin". `Path.From`
(defined in path.go, outside the provided sources) returns the origin. -/
def Path.From (p : Path) : Position := List.headD p ⟨0, 0⟩

/-- `PathFinder.gameCoordsToScreenCords`: the fixed isometric projection of
a world delta to screen pixels. `19.8` and `9.9` are modelled exactly as
`99/5` and `99/10`, so `int((d)*19.8 + c)` is the truncated quotient
`(d*99 + 5*c) / 5` (and likewise with 10); `GameAreaSizeX/2` is Go integer
division. -/
def gameCoordsToScreenCords (pf : PathFinder)
    (playerX playerY destinationX destinationY : Int) : Int × Int :=
  let diffX := destinationX - playerX
  let diffY := destinationY - playerY
  let screenX := ((diffX - diffY) * 99 + 5 * pf.gr.GameAreaSizeX.tdiv 2).tdiv 5
  let screenY := ((diffX + diffY) * 99 + 10 * pf.gr.GameAreaSizeY.tdiv 2).tdiv 10
  (screenX, screenY)

/-- `PathFinder.GameCoordsToScreenCords`: projection from the player. -/
def GameCoordsToScreenCords (pf : PathFinder) (destinationX destinationY : Int) : Int × Int :=
  gameCoordsToScreenCords pf pf.data.PlayerUnit.Position.X pf.data.PlayerUnit.Position.Y
    destinationX destinationY

/-- The HUD exclusion line `int(float32(GameAreaSizeY)/1.19)`: the exact
value is `GameAreaSizeY * 100 / 119`, truncated toward zero. -/
def hudBoundary (pf : PathFinder) : Int :=
  (pf.gr.GameAreaSizeY * 100).tdiv 119

/-- Floor square root of a natural number, written so the kernel can
evaluate it: the largest `k ≤ n` with `k*k ≤ n` (the candidates below `n+1`
with `k*k ≤ n` form a downward-closed range, so the last one is the floor
square root). -/
def intSqrt (n : Nat) : Nat :=
  ((List.range (n + 1)).filter (fun k => k * k ≤ n)).getLastD 0

/-- `DistanceFromPoint`: Euclidean distance truncated to int
(`int(math.Sqrt(dx^2 + dy^2))`, the truncation of the float square root
being the floor square root on these integer inputs). -/
def DistanceFromPoint (fromPos toPos : Position) : Int :=
  Int.ofNat (intSqrt ((toPos.X - fromPos.X).natAbs ^ 2 + (toPos.Y - fromPos.Y).natAbs ^ 2))

/-- The loop of `PathFinder.LineOfSight` (Bresenham error stepping), with an
explicit fuel bound; `none` means the fuel ran out before the loop returned.
Each iteration: blocked cell returns false, reaching the destination returns
true, otherwise `x` and/or `y` advance by `sx`/`sy` with the error update of
the source (`e2 = 2*err` is inlined). -/
def losLoop (walkable : Position → Bool) (D : Position) (sx sy dx dy : Int) :
    Nat → Int → Int → Int → Option Bool
  | 0, _, _, _ => none
  | fuel + 1, x, y, err =>
    if walkable ⟨x, y⟩ = false then some false
    else if x = D.X ∧ y = D.Y then some true
    else
      losLoop walkable D sx sy dx dy fuel
        (if 2 * err > -dy then x + sx else x)
        (if 2 * err < dx then y + sy else y)
        (if 2 * err < dx then (if 2 * err > -dy then err - dy else err) + dx
         else (if 2 * err > -dy then err - dy else err))

/-- `PathFinder.LineOfSight` with an explicit fuel bound for the stepping
loop. The walkability of the grid is passed as a predicate (the grid lives
in the external snapshot). -/
def LineOfSight (walkable : Position → Bool) (origin destination : Position)
    (fuel : Nat) : Option Bool :=
  let dx : Int := (destination.X - origin.X).natAbs
  let dy : Int := (destination.Y - origin.Y).natAbs
  let sx : Int := if origin.X > destination.X then -1 else 1
  let sy : Int := if origin.Y > destination.Y then -1 else 1
  losLoop walkable destination sx sy dx dy fuel origin.X origin.Y (dx - dy)

/-- `LineOfSight` run with the canonical fuel `|dx| + |dy| + 1`, which is
exactly the number of iterations the Go loop needs (proved sufficient
below): this is the semantics of the unbounded Go loop. -/
def LineOfSightRun (walkable : Position → Bool) (origin destination : Position) : Option Bool :=
  LineOfSight walkable origin destination
    ((destination.X - origin.X).natAbs + (destination.Y - origin.Y).natAbs + 1)

/-- `PathFinder.pressForceMove`: if the force-move binding is a mouse button
(virtual key 1..6 except 3) a left click is used, otherwise the bound key is
pressed. -/
def pressForceMove (pf : PathFinder) (x y : Int) : List Command :=
  let k1 := pf.data.KeyBindings.ForceMoveKey1
  let forceMoveKey := if k1 = 0 ∨ k1 = 255 then pf.data.KeyBindings.ForceMoveKey2 else k1
  if 1 ≤ forceMoveKey ∧ forceMoveKey ≤ 6 ∧ forceMoveKey ≠ 3 then
    [Command.Click Button.Left x y]
  else
    [Command.PressKeyBinding]

/-- The skill-selection preamble of `PathFinder.MoveCharacter`: when packet
skill selection is configured and the right skill is not Teleport, the
protocol skill selection is issued, with a 50 ms settle delay on success. -/
def skillSelectCommands (pf : PathFinder) (ps : PacketSender) : List Command :=
  if pf.cfg.PacketCasting.UseForSkillSelection then
    if pf.data.PlayerUnit.RightSkill ≠ skillTeleport then
      Command.SelectRightSkill :: (if ps.selectRightSkillErr then [] else [Command.SleepMs 50])
    else []
  else []

/-- `PathFinder.MoveCharacter`: teleporting characters use the packet
teleport (when configured, a sender is present and a world position was
passed) with a right-click fallback on error, otherwise a right-click cast;
walking characters move the pointer and click (town) or force-move. -/
def MoveCharacter (pf : PathFinder) (x y : Int) (gamePos : List Position) : List Command :=
  if pf.data.CanTeleport then
    match pf.packetSender, gamePos with
    | some ps, g :: _ =>
      if pf.cfg.PacketCasting.UseForTeleport then
        skillSelectCommands pf ps ++
          (Command.Teleport g ::
            (if ps.teleportErr g then [Command.Click Button.Right x y]
             else [Command.SleepMs pf.data.PlayerCastDurationMs]))
      else [Command.Click Button.Right x y]
    | _, _ => [Command.Click Button.Right x y]
  else
    Command.MovePointer x y ::
      ((if pf.data.PlayerUnit.Area.IsTown then [Command.Click Button.Left x y]
        else pressForceMove pf x y) ++ [Command.SleepMs 50])

/-- `PathFinder.isMouseClickTeleportZone`: the three areas that corrupt
packet-based movement. -/
def isMouseClickTeleportZone (pf : PathFinder) : Bool :=
  match pf.data.PlayerUnit.Area with
  | .FlayerJungle | .LowerKurast | .RiverOfFlame => true
  | _ => false

/-- `PathFinder.isNearAreaBoundary`: false when the grid is absent,
otherwise whether the least distance to the four sides of the area's
bounding rectangle is at most the threshold (the running-minimum chain of
the source). -/
def isNearAreaBoundary (pf : PathFinder) (pos : Position) (threshold : Int) : Bool :=
  match pf.data.AreaData.Grid with
  | none => false
  | some g =>
    let distToLeft := pos.X - g.OffsetX
    let distToRight := (g.OffsetX + g.Width) - pos.X
    let distToTop := pos.Y - g.OffsetY
    let distToBottom := (g.OffsetY + g.Height) - pos.Y
    let m1 := if distToRight < distToLeft then distToRight else distToLeft
    let m2 := if distToTop < m1 then distToTop else m1
    let minDistance := if distToBottom < m2 then distToBottom else m2
    decide (minDistance ≤ threshold)

/-- The body `moveThroughPathTeleport` runs at the selected path point: the
world position is the point plus the area origin, and the packet teleport is
used only when configuration and sender allow it, the area is not a
mouse-click teleport zone and the world position is not near the area
boundary (threshold 60); the source computes this with nested ifs that clear
`usePacket`, which is the same boolean. -/
def teleportCastAt (pf : PathFinder) (fromPos pos : Position) : List Command :=
  let sc := gameCoordsToScreenCords pf fromPos.X fromPos.Y pos.X pos.Y
  let worldPos : Position := ⟨pos.X + pf.data.AreaOrigin.X, pos.Y + pf.data.AreaOrigin.Y⟩
  if (pf.cfg.PacketCasting.UseForTeleport && pf.packetSender.isSome)
      && !(isMouseClickTeleportZone pf) && !(isNearAreaBoundary pf worldPos 60) then
    MoveCharacter pf sc.1 sc.2 [worldPos]
  else
    MoveCharacter pf sc.1 sc.2 []

/-- The backward scan of `PathFinder.moveThroughPathTeleport`, over the
reversed path: a point whose projection is below the HUD line or outside the
viewport is skipped (the loop continues), the first acceptable point is cast
at and the loop returns. -/
def teleScan (pf : PathFinder) (fromPos : Position) : List Position → List Command
  | [] => []
  | pos :: rest =>
    let sc := gameCoordsToScreenCords pf fromPos.X fromPos.Y pos.X pos.Y
    if sc.2 > hudBoundary pf then teleScan pf fromPos rest
    else if 0 ≤ sc.1 ∧ 0 ≤ sc.2 ∧ sc.1 ≤ pf.gr.GameAreaSizeX ∧ sc.2 ≤ pf.gr.GameAreaSizeY then
      teleportCastAt pf fromPos pos
    else teleScan pf fromPos rest

/-- `PathFinder.moveThroughPathTeleport`: scan the path backward from the
destination (`for i := len(p)-1; i >= 0; i--`). -/
def moveThroughPathTeleport (pf : PathFinder) (p : Path) : List Command :=
  teleScan pf (Path.From p) (List.reverse p)

/-- The backward scan of `PathFinder.GetLastPathIndexOnScreen`, over the
reversed enumerated path: below-HUD and out-of-viewport points are skipped,
the first acceptable index is returned, 0 if none is found. -/
def lastIndexScan (pf : PathFinder) (fromPos : Position) : List (Nat × Position) → Nat
  | [] => 0
  | (i, pos) :: rest =>
    let sc := gameCoordsToScreenCords pf fromPos.X fromPos.Y pos.X pos.Y
    if sc.2 > hudBoundary pf then lastIndexScan pf fromPos rest
    else if 0 ≤ sc.1 ∧ 0 ≤ sc.2 ∧ sc.1 ≤ pf.gr.GameAreaSizeX ∧ sc.2 ≤ pf.gr.GameAreaSizeY then i
    else lastIndexScan pf fromPos rest

/-- `PathFinder.GetLastPathIndexOnScreen`. -/
def GetLastPathIndexOnScreen (pf : PathFinder) (p : Path) : Nat :=
  lastIndexScan pf (Path.From p) (List.reverse (List.enum p))

/-- The forward scan of `PathFinder.moveThroughPathWalk`: `distance` is the
range index, `screenCords` the accumulator (zero value at the start); the
scan stops (returning the accumulator) at the first point over the distance
budget (only checked for non-teleporting characters), below the HUD line or
outside the viewport, and otherwise records the point's projection. -/
def walkScan (pf : PathFinder) (fromPos : Position) (maxDistance : Int) :
    Nat → List Position → Position → Position
  | _, [], screenCords => screenCords
  | distance, pos :: rest, screenCords =>
    let sc := gameCoordsToScreenCords pf fromPos.X fromPos.Y pos.X pos.Y
    if pf.data.CanTeleport = false ∧ maxDistance > 0 ∧ (distance : Int) > maxDistance then
      screenCords
    else if sc.2 > hudBoundary pf then screenCords
    else if sc.1 < 0 ∨ sc.2 < 0 ∨ sc.1 > pf.gr.GameAreaSizeX ∨ sc.2 > pf.gr.GameAreaSizeY then
      screenCords
    else walkScan pf fromPos maxDistance (distance + 1) rest ⟨sc.1, sc.2⟩

/-- `PathFinder.moveThroughPathWalk`: the distance budget is
`int(25 * walkDuration.Seconds())`; a Go `time.Duration` is an integer
nanosecond count and `Seconds()` divides by 10^9, so the budget is the
truncated quotient `25 * walkDurationNs / 10^9`. -/
def moveThroughPathWalk (pf : PathFinder) (p : Path) (walkDurationNs : Int) : List Command :=
  let maxDistance := (25 * walkDurationNs).tdiv 1000000000
  let screenCords := walkScan pf (Path.From p) maxDistance 0 p ⟨0, 0⟩
  MoveCharacter pf screenCords.X screenCords.Y []

/-- `PathFinder.MoveThroughPath`: strategy selection on the capability. -/
def MoveThroughPath (pf : PathFinder) (p : Path) (walkDurationNs : Int) : List Command :=
  if pf.data.CanTeleport then moveThroughPathTeleport pf p
  else moveThroughPathWalk pf p walkDurationNs

/-- The eight compass offsets of `DirectionalMovement` (distance 5). -/
def directions : List (Int × Int) :=
  [(0, -5), (5, -5), (5, 0), (5, 5), (0, 5), (-5, 5), (-5, 0), (-5, -5)]

/-- The `attemptMove` helper of `DirectionalMovement`: optional walkability
filter, then the viewport bound filter (50-pixel margins and the HUD line);
on success the issued movement commands are returned. -/
def attemptMove (pf : PathFinder) (targetPos : Position) (checkWalkable : Bool) :
    Option (List Command) :=
  if checkWalkable = true ∧ pf.data.AreaData.IsWalkable targetPos = false then none
  else
    let sc := GameCoordsToScreenCords pf targetPos.X targetPos.Y
    if sc.1 ≤ 50 ∨ sc.1 ≥ pf.gr.GameAreaSizeX - 50 ∨ sc.2 ≤ 50 ∨ sc.2 ≥ hudBoundary pf then
      none
    else
      some (Command.MovePointer sc.1 sc.2 ::
        ((if pf.data.PlayerUnit.Area.IsTown then [Command.Click Button.Left sc.1 sc.2]
          else pressForceMove pf sc.1 sc.2) ++ [Command.SleepMs 150]))

/-- Target of a direction at the given radius multiplier. -/
def dirTarget (cur : Position) (mult : Int) (d : Int × Int) : Position :=
  ⟨cur.X + d.1 * mult, cur.Y + d.2 * mult⟩

/-- Whether the snapshot carries a usable collision grid (the safety check
at the top of `DirectionalMovement`). -/
def gridPresent (pf : PathFinder) : Bool :=
  match pf.data.AreaData.Grid with
  | none => false
  | some g => g.CollisionGrid.isSome

/-- `PathFinder.DirectionalMovement`: nil-grid no-op, then three passes over
the (shuffled) directions — radius 5 with the walkability check, radius 10
with the walkability check, radius 5 without it; the first passing candidate
is moved to and true is returned, false with no commands otherwise. The
per-call shuffle is modelled by taking the shuffled direction list as an
argument. -/
def DirectionalMovement (pf : PathFinder) (dirs : List (Int × Int)) : Bool × List Command :=
  if gridPresent pf = false then (false, [])
  else
    let currentPos := pf.data.PlayerUnit.Position
    match List.findSome? (fun d => attemptMove pf (dirTarget currentPos 1 d) true) dirs with
    | some cmds => (true, cmds)
    | none =>
      match List.findSome? (fun d => attemptMove pf (dirTarget currentPos 2 d) true) dirs with
      | some cmds => (true, cmds)
      | none =>
        match List.findSome? (fun d => attemptMove pf (dirTarget currentPos 1 d) false) dirs with
        | some cmds => (true, cmds)
        | none => (false, [])

/-- Go `math.MaxInt` on a 64-bit platform. -/
def maxInt : Int := 9223372036854775807

/-- The distance-matrix lookup `distanceMatrix[r1][r2]` of
`OptimizeRoomsTraverseOrder`: the matrix has an entry exactly for value-keys
that occur in the room list (0 on the diagonal); any other lookup hits a nil
map and yields Go's zero value 0. -/
def matrixLookup (rooms : List Room) (r1 r2 : Room) : Int :=
  if r1 ∈ rooms ∧ r2 ∈ rooms then
    if r1 = r2 then 0 else DistanceFromPoint r1.GetCenter r2.GetCenter
  else 0

/-- The room containing the player: the source iterates all rooms keeping
the last one whose `IsInside` holds, starting from the zero value. -/
def findCurrentRoom (rooms : List Room) (playerPos : Position) : Room :=
  rooms.foldl (fun acc r => if r.IsInside playerPos then r else acc) Room.empty

/-- The inner search of the greedy loop: fold over the rooms keeping the
unvisited room of least matrix distance from the current room, starting from
the zero-value room and `math.MaxInt`. -/
def nearestUnvisited (rooms visited : List Room) (current : Room) : Room × Int :=
  rooms.foldl
    (fun acc room =>
      if room ∉ visited ∧ matrixLookup rooms current room < acc.2 then
        (room, matrixLookup rooms current room)
      else acc)
    (Room.empty, maxInt)

/-- The greedy loop of `OptimizeRoomsTraverseOrder`
(`for len(order) < len(rooms)`), with fuel: each iteration appends one room,
so `rooms.length` iterations always reach the loop condition. -/
def traverseLoop (rooms : List Room) : Nat → Room → List Room → List Room → List Room
  | 0, _, order, _ => order
  | n + 1, current, order, visited =>
    if order.length < rooms.length then
      traverseLoop rooms n (nearestUnvisited rooms visited current).1
        (order ++ [(nearestUnvisited rooms visited current).1])
        (visited ++ [(nearestUnvisited rooms visited current).1])
    else order

/-- `PathFinder.OptimizeRoomsTraverseOrder` over the snapshot's rooms and
player position. -/
def OptimizeRoomsTraverseOrder (rooms : List Room) (playerPos : Position) : List Room :=
  let currentRoom := findCurrentRoom rooms playerPos
  traverseLoop rooms rooms.length currentRoom [currentRoom] [currentRoom]

/-- Structure eta for positions. -/
@[simp] theorem Position.eta (p : Position) : (⟨p.X, p.Y⟩ : Position) = p := rfl

/-- C9: for every pathfinder state (any viewport) and every player position,
the world-to-screen projection of the player's own position (zero
displacement) is exactly the viewport center
`(GameAreaSizeX/2, GameAreaSizeY/2)` (Go integer division). -/
theorem c9_zero_displacement_is_viewport_center (pf : PathFinder) (px py : Int) :
    gameCoordsToScreenCords pf px py px py =
      (pf.gr.GameAreaSizeX.tdiv 2, pf.gr.GameAreaSizeY.tdiv 2) := by
  simp only [gameCoordsToScreenCords, sub_self, zero_sub, neg_zero, zero_mul, zero_add,
    add_zero, zero_mul]
  rw [Int.mul_tdiv_cancel_left _ (by norm_num), Int.mul_tdiv_cancel_left _ (by norm_num)]

/-- C7: whenever the snapshot carries no usable collision grid (nil `Grid`
or nil `CollisionGrid`), `DirectionalMovement` returns false immediately and
issues no command at all, for any direction order. -/
theorem c7_nil_grid_directional_noop (pf : PathFinder) (dirs : List (Int × Int))
    (h : gridPresent pf = false) :
    DirectionalMovement pf dirs = (false, []) := by
  simp [DirectionalMovement, h]

/-- A concrete pathfinder state whose snapshot has a nil grid. -/
def pfNoGrid : PathFinder :=
  { gr := ⟨600, 600⟩
    data :=
      { PlayerUnit := ⟨⟨0, 0⟩, .Other 1, 0⟩
        AreaData := ⟨none⟩
        AreaOrigin := ⟨0, 0⟩
        Rooms := []
        CanTeleport := false
        PlayerCastDurationMs := 250
        KeyBindings := ⟨0, 0⟩ }
    cfg := ⟨⟨false, false⟩⟩
    packetSender := none }

/-- Witness for C7 at a concrete nil-grid state. -/
theorem c7_nil_grid_directional_noop_witness :
    DirectionalMovement pfNoGrid directions = (false, []) :=
  c7_nil_grid_directional_noop pfNoGrid directions rfl

/-- C1 (amended): a same-point line-of-sight query returns the walkability
of that cell — true exactly when the cell is walkable — and the stepping
loop runs at most once: fuel 1 already yields the final answer (which is
also the canonical-fuel run, since the canonical fuel at zero displacement
is 1). -/
theorem c1_los_same_point_walkability (walkable : Position → Bool) (p : Position) :
    LineOfSight walkable p p 1 = some (walkable p) ∧
      LineOfSightRun walkable p p = some (walkable p) := by
  have h : LineOfSight walkable p p 1 = some (walkable p) := by
    cases hb : walkable p <;> simp [LineOfSight, losLoop, hb]
  exact ⟨h, by simpa [LineOfSightRun] using h⟩

/-- Counterexample to C1 as stated: on the grid with no walkable cell, the
same-point query at the origin returns false, not true (the source tests
walkability of the origin cell before the same-point check). -/
theorem c1_counterexample_blocked_cell :
    LineOfSightRun (fun _ => false) ⟨0, 0⟩ ⟨0, 0⟩ = some false := by
  decide

/-- C4: whenever the packet teleport path is taken (teleport capability,
sender present, packet teleport configured, a world position passed) and the
sender's teleport call errors, `MoveCharacter` issues the teleport call and
then falls back to a simulated right-click at the same screen coordinates,
within the same call, with no other outcome. -/
theorem c4_packet_error_right_click_fallback (pf : PathFinder) (ps : PacketSender)
    (x y : Int) (g : Position) (rest : List Position)
    (hct : pf.data.CanTeleport = true)
    (hps : pf.packetSender = some ps)
    (hcfg : pf.cfg.PacketCasting.UseForTeleport = true)
    (herr : ps.teleportErr g = true) :
    MoveCharacter pf x y (g :: rest) =
      skillSelectCommands pf ps ++ [Command.Teleport g, Command.Click Button.Right x y] := by
  simp [MoveCharacter, hct, hps, hcfg, herr]

/-- A packet sender whose teleport call always errors. -/
def psAlwaysErr : PacketSender := ⟨fun _ => true, false⟩

/-- A concrete teleport-capable, packet-configured pathfinder state with the
always-erroring sender and Teleport as the right skill. -/
def pfPacketErr : PathFinder :=
  { gr := ⟨600, 600⟩
    data :=
      { PlayerUnit := ⟨⟨0, 0⟩, .Other 1, skillTeleport⟩
        AreaData := ⟨some ⟨some (fun _ => true), 0, 0, 1000, 1000⟩⟩
        AreaOrigin := ⟨100, 100⟩
        Rooms := []
        CanTeleport := true
        PlayerCastDurationMs := 250
        KeyBindings := ⟨0, 0⟩ }
    cfg := ⟨⟨true, false⟩⟩
    packetSender := some psAlwaysErr }

/-- Witness for C4 at a concrete failing teleport. -/
theorem c4_packet_error_right_click_fallback_witness :
    MoveCharacter pfPacketErr 10 20 [⟨5, 5⟩] =
      skillSelectCommands pfPacketErr psAlwaysErr ++
        [Command.Teleport ⟨5, 5⟩, Command.Click Button.Right 10 20] :=
  c4_packet_error_right_click_fallback pfPacketErr psAlwaysErr 10 20 ⟨5, 5⟩ [] rfl rfl rfl rfl

/-- Spec wording of the per-point acceptance test of the backward scans: the
projection lies above the HUD exclusion line and within viewport bounds. -/
def onScreenOk (pf : PathFinder) (fromPos pos : Position) : Bool :=
  let sc := gameCoordsToScreenCords pf fromPos.X fromPos.Y pos.X pos.Y
  decide (sc.2 ≤ hudBoundary pf ∧ 0 ≤ sc.1 ∧ 0 ≤ sc.2 ∧
    sc.1 ≤ pf.gr.GameAreaSizeX ∧ sc.2 ≤ pf.gr.GameAreaSizeY)

/-- The teleport scan acts on the first acceptable point of its input and
skips the rest; points failing either check are skipped, not terminal. -/
theorem teleScan_eq_filter (pf : PathFinder) (fromPos : Position) (m : List Position) :
    teleScan pf fromPos m =
      ((m.filter (onScreenOk pf fromPos)).head?).elim [] (teleportCastAt pf fromPos) := by
  induction m with
  | nil => simp [teleScan]
  | cons pos rest ih =>
    by_cases h1 : (gameCoordsToScreenCords pf fromPos.X fromPos.Y pos.X pos.Y).2 >
        hudBoundary pf
    · have hok : onScreenOk pf fromPos pos = false := by
        simp only [onScreenOk, decide_eq_false_iff_not]
        intro hc
        exact absurd hc.1 (not_le.mpr h1)
      simp [teleScan, h1, List.filter_cons, hok, ih]
    · by_cases h2 : 0 ≤ (gameCoordsToScreenCords pf fromPos.X fromPos.Y pos.X pos.Y).1 ∧
          0 ≤ (gameCoordsToScreenCords pf fromPos.X fromPos.Y pos.X pos.Y).2 ∧
          (gameCoordsToScreenCords pf fromPos.X fromPos.Y pos.X pos.Y).1 ≤
            pf.gr.GameAreaSizeX ∧
          (gameCoordsToScreenCords pf fromPos.X fromPos.Y pos.X pos.Y).2 ≤
            pf.gr.GameAreaSizeY
      · have hok : onScreenOk pf fromPos pos = true := by
          simp only [onScreenOk, decide_eq_true_eq]
          exact ⟨not_lt.mp h1, h2.1, h2.2.1, h2.2.2.1, h2.2.2.2⟩
        simp [teleScan, h1, h2, List.filter_cons, hok]
      · have hok : onScreenOk pf fromPos pos = false := by
          simp only [onScreenOk, decide_eq_false_iff_not]
          intro hc
          exact h2 ⟨hc.2.1, hc.2.2.1, hc.2.2.2.1, hc.2.2.2.2⟩
        simp [teleScan, h1, h2, List.filter_cons, hok, ih]

/-- The index scan returns the first acceptable index of its input, 0 when
there is none. -/
theorem lastIndexScan_eq_filter (pf : PathFinder) (fromPos : Position)
    (m : List (Nat × Position)) :
    lastIndexScan pf fromPos m =
      ((m.filter (fun ip => onScreenOk pf fromPos ip.2)).map Prod.fst).headD 0 := by
  induction m with
  | nil => simp [lastIndexScan]
  | cons ip rest ih =>
    obtain ⟨i, pos⟩ := ip
    by_cases h1 : (gameCoordsToScreenCords pf fromPos.X fromPos.Y pos.X pos.Y).2 >
        hudBoundary pf
    · have hok : onScreenOk pf fromPos pos = false := by
        simp only [onScreenOk, decide_eq_false_iff_not]
        intro hc
        exact absurd hc.1 (not_le.mpr h1)
      simp [lastIndexScan, h1, List.filter_cons, hok, ih]
    · by_cases h2 : 0 ≤ (gameCoordsToScreenCords pf fromPos.X fromPos.Y pos.X pos.Y).1 ∧
          0 ≤ (gameCoordsToScreenCords pf fromPos.X fromPos.Y pos.X pos.Y).2 ∧
          (gameCoordsToScreenCords pf fromPos.X fromPos.Y pos.X pos.Y).1 ≤
            pf.gr.GameAreaSizeX ∧
          (gameCoordsToScreenCords pf fromPos.X fromPos.Y pos.X pos.Y).2 ≤
            pf.gr.GameAreaSizeY
      · have hok : onScreenOk pf fromPos pos = true := by
          simp only [onScreenOk, decide_eq_true_eq]
          exact ⟨not_lt.mp h1, h2.1, h2.2.1, h2.2.2.1, h2.2.2.2⟩
        simp [lastIndexScan, h1, h2, List.filter_cons, hok]
      · have hok : onScreenOk pf fromPos pos = false := by
          simp only [onScreenOk, decide_eq_false_iff_not]
          intro hc
          exact h2 ⟨hc.2.1, hc.2.2.1, hc.2.2.2.1, hc.2.2.2.2⟩
        simp [lastIndexScan, h1, h2, List.filter_cons, hok, ih]

/-- Spec wording of the furthest on-screen path index: the largest index
whose projection is above the HUD line and within the viewport, 0 when no
index qualifies. -/
def furthestOnScreenIndex (pf : PathFinder) (p : Path) : Nat :=
  (((List.enum p).filter (fun ip => onScreenOk pf (Path.From p) ip.2)).map Prod.fst).getLastD 0

/-- C6: the teleport strategy's backward scan. The selected index is the
furthest acceptable index along the path (points failing the HUD or bound
checks are skipped, not terminal), and the teleport planner casts exactly at
the furthest acceptable point, doing nothing when no point qualifies. -/
theorem c6_teleport_backward_scan_furthest (pf : PathFinder) (p : Path) :
    GetLastPathIndexOnScreen pf p = furthestOnScreenIndex pf p ∧
      moveThroughPathTeleport pf p =
        ((p.filter (onScreenOk pf (Path.From p))).getLast?).elim []
          (teleportCastAt pf (Path.From p)) := by
  constructor
  · rw [GetLastPathIndexOnScreen, lastIndexScan_eq_filter, furthestOnScreenIndex,
      List.filter_reverse, List.map_reverse, List.headD_eq_head?, List.head?_reverse,
      List.getLastD_eq_getLast?]
  · rw [moveThroughPathTeleport, teleScan_eq_filter, List.filter_reverse,
      List.head?_reverse]

/-- The per-point acceptance test of the walk scan at an enumerated path
point: within the distance budget (for non-teleporting characters, for a
positive budget), above the HUD line, inside the viewport. -/
def walkOk (pf : PathFinder) (fromPos : Position) (maxDistance : Int)
    (ip : Nat × Position) : Bool :=
  let sc := gameCoordsToScreenCords pf fromPos.X fromPos.Y ip.2.X ip.2.Y
  decide (¬(pf.data.CanTeleport = false ∧ maxDistance > 0 ∧ (ip.1 : Int) > maxDistance) ∧
    sc.2 ≤ hudBoundary pf ∧ 0 ≤ sc.1 ∧ 0 ≤ sc.2 ∧
    sc.1 ≤ pf.gr.GameAreaSizeX ∧ sc.2 ≤ pf.gr.GameAreaSizeY)

/-- Projection of an enumerated path point to a screen position. -/
def walkProj (pf : PathFinder) (fromPos : Position) (ip : Nat × Position) : Position :=
  let sc := gameCoordsToScreenCords pf fromPos.X fromPos.Y ip.2.X ip.2.Y
  ⟨sc.1, sc.2⟩

/-- The walk scan returns the projection of the last point of the longest
acceptable prefix, the accumulator when the first point already violates a
bound: the scan stops at the first violation and later points are ignored. -/
theorem walkScan_eq_takeWhile (pf : PathFinder) (fromPos : Position) (maxDistance : Int)
    (l : List Position) :
    ∀ (idx : Nat) (acc : Position),
      walkScan pf fromPos maxDistance idx l acc =
        (((List.enumFrom idx l).takeWhile (walkOk pf fromPos maxDistance)).map
          (walkProj pf fromPos)).getLastD acc := by
  induction l with
  | nil => intro idx acc; simp [walkScan]
  | cons pos rest ih =>
    intro idx acc
    have henum : List.enumFrom idx (pos :: rest) = (idx, pos) :: List.enumFrom (idx + 1) rest :=
      rfl
    rw [henum, List.takeWhile_cons]
    by_cases hb : pf.data.CanTeleport = false ∧ maxDistance > 0 ∧ (idx : Int) > maxDistance
    · have hok : walkOk pf fromPos maxDistance (idx, pos) = false := by
        simp only [walkOk, decide_eq_false_iff_not]
        intro hc
        exact hc.1 hb
      simp [walkScan, hb, hok]
    · by_cases h1 : (gameCoordsToScreenCords pf fromPos.X fromPos.Y pos.X pos.Y).2 >
          hudBoundary pf
      · have hok : walkOk pf fromPos maxDistance (idx, pos) = false := by
          simp only [walkOk, decide_eq_false_iff_not]
          intro hc
          exact absurd hc.2.1 (not_le.mpr h1)
        simp [walkScan, hb, h1, hok]
      · by_cases h2 : (gameCoordsToScreenCords pf fromPos.X fromPos.Y pos.X pos.Y).1 < 0 ∨
            (gameCoordsToScreenCords pf fromPos.X fromPos.Y pos.X pos.Y).2 < 0 ∨
            (gameCoordsToScreenCords pf fromPos.X fromPos.Y pos.X pos.Y).1 >
              pf.gr.GameAreaSizeX ∨
            (gameCoordsToScreenCords pf fromPos.X fromPos.Y pos.X pos.Y).2 >
              pf.gr.GameAreaSizeY
        · have hok : walkOk pf fromPos maxDistance (idx, pos) = false := by
            simp only [walkOk, decide_eq_false_iff_not]
            intro hc
            rcases h2 with h | h | h | h
            · exact absurd hc.2.2.1 (not_le.mpr h)
            · exact absurd hc.2.2.2.1 (not_le.mpr h)
            · exact absurd hc.2.2.2.2.1 (not_le.mpr h)
            · exact absurd hc.2.2.2.2.2 (not_le.mpr h)
          simp [walkScan, hb, h1, h2, hok]
        · have hok : walkOk pf fromPos maxDistance (idx, pos) = true := by
            simp only [walkOk, decide_eq_true_eq]
            push_neg at h2
            exact ⟨hb, not_lt.mp h1, h2.1, h2.2.1, h2.2.2.1, h2.2.2.2⟩
          rw [if_pos hok, List.map_cons, List.getLastD_cons]
          simp only [walkScan]
          rw [if_neg hb, if_neg h1, if_neg h2]
          exact ih (idx + 1) (walkProj pf fromPos (idx, pos))

/-- Spec wording of the walk target: scan the path in order from the origin
and take the furthest point scanned before the first point that violates the
distance budget, the HUD exclusion line or the viewport bounds; the zero
position when the very first point violates one. -/
def walkTargetSpec (pf : PathFinder) (p : Path) (maxDistance : Int) : Position :=
  (((List.enum p).takeWhile (walkOk pf (Path.From p) maxDistance)).map
    (walkProj pf (Path.From p))).getLastD ⟨0, 0⟩

/-- C5: the walking strategy computes the distance budget as 25 times the
walk duration in seconds (truncated to int), scans the path in order and
issues its move at the furthest point scanned before the first
budget/HUD/viewport violation (the scan, not the whole operation, stops
there). -/
theorem c5_walk_budget_scan_target (pf : PathFinder) (p : Path) (walkDurationNs : Int) :
    moveThroughPathWalk pf p walkDurationNs =
      MoveCharacter pf
        (walkTargetSpec pf p ((25 * walkDurationNs).tdiv 1000000000)).X
        (walkTargetSpec pf p ((25 * walkDurationNs).tdiv 1000000000)).Y [] := by
  rw [moveThroughPathWalk, walkTargetSpec, walkScan_eq_takeWhile]
  rfl

/-- The skill-selection preamble never contains a packet teleport. -/
theorem teleport_not_mem_skillSelect (pf : PathFinder) (ps : PacketSender) (w : Position) :
    Command.Teleport w ∉ skillSelectCommands pf ps := by
  unfold skillSelectCommands
  split_ifs <;> simp

/-- The walking branch of `MoveCharacter` never issues a packet teleport. -/
theorem teleport_not_mem_walkBranch (pf : PathFinder) (x y : Int)
    (gamePos : List Position) (w : Position) (hct : pf.data.CanTeleport = false) :
    Command.Teleport w ∉ MoveCharacter pf x y gamePos := by
  unfold MoveCharacter pressForceMove
  rw [hct]
  simp only [Bool.false_eq_true, if_false]
  split_ifs <;> simp

/-- A packet teleport appears in the output of `MoveCharacter` only on the
packet path: teleport capability, packet teleport configured, a sender
present, and the teleported-to position is the passed world position. -/
theorem teleport_mem_MoveCharacter (pf : PathFinder) (x y : Int)
    (gamePos : List Position) (w : Position)
    (hmem : Command.Teleport w ∈ MoveCharacter pf x y gamePos) :
    pf.data.CanTeleport = true ∧ pf.cfg.PacketCasting.UseForTeleport = true ∧
      ∃ ps rest, pf.packetSender = some ps ∧ gamePos = w :: rest := by
  cases hct : pf.data.CanTeleport with
  | false => exact absurd hmem (teleport_not_mem_walkBranch pf x y gamePos w hct)
  | true =>
    cases hsend : pf.packetSender with
    | none =>
      exfalso
      simp only [MoveCharacter, hct, hsend] at hmem
      simp at hmem
    | some ps =>
      cases hgp : gamePos with
      | nil =>
        exfalso
        simp only [MoveCharacter, hct, hsend, hgp] at hmem
        simp at hmem
      | cons g rest =>
        simp only [MoveCharacter, hct, hsend, hgp] at hmem
        cases hcfg : pf.cfg.PacketCasting.UseForTeleport with
        | false =>
          exfalso
          rw [hcfg] at hmem
          simp at hmem
        | true =>
          rw [hcfg, if_pos rfl] at hmem
          rcases List.mem_append.mp hmem with h | h
          · exact absurd h (teleport_not_mem_skillSelect pf ps w)
          · rcases List.mem_cons.mp h with h | h
            · have hw : w = g := by
                injection h
              exact ⟨rfl, rfl, ps, rest, rfl, by rw [hw]⟩
            · exfalso
              split at h <;> simp at h

/-- C3: the packet teleport command is issued by the teleport planner only
when packet teleporting is configured, a sender is present, the area is not
a mouse-click teleport zone, and the target world position is not within 60
units of the area boundary; a world position within the threshold (such as
one 30 units from the boundary) is never packet-teleported to, and whenever
the planner acts at all (for a teleporting character) it issues either the
packet teleport or a simulated right-click cast. -/
theorem c3_packet_teleport_gating (pf : PathFinder) (p : Path) :
    (∀ w : Position, Command.Teleport w ∈ moveThroughPathTeleport pf p →
      pf.cfg.PacketCasting.UseForTeleport = true ∧ pf.packetSender.isSome = true ∧
        isMouseClickTeleportZone pf = false ∧ isNearAreaBoundary pf w 60 = false) ∧
    (∀ w : Position, isNearAreaBoundary pf w 60 = true →
      Command.Teleport w ∉ moveThroughPathTeleport pf p) ∧
    (pf.data.CanTeleport = true → moveThroughPathTeleport pf p ≠ [] →
      (∃ w, Command.Teleport w ∈ moveThroughPathTeleport pf p) ∨
        ∃ a b, Command.Click Button.Right a b ∈ moveThroughPathTeleport pf p) := by
  have key : ∀ w : Position, Command.Teleport w ∈ moveThroughPathTeleport pf p →
      pf.cfg.PacketCasting.UseForTeleport = true ∧ pf.packetSender.isSome = true ∧
        isMouseClickTeleportZone pf = false ∧ isNearAreaBoundary pf w 60 = false := by
    intro w hmem
    rw [moveThroughPathTeleport, teleScan_eq_filter] at hmem
    cases hsel : ((List.reverse p).filter (onScreenOk pf (Path.From p))).head? with
    | none =>
      rw [hsel] at hmem
      simp at hmem
    | some pos =>
      rw [hsel] at hmem
      simp only [Option.elim, teleportCastAt] at hmem
      split at hmem
      case isTrue hcond =>
        obtain ⟨-, hcfg, ps, rest, hsend, heq⟩ :=
          teleport_mem_MoveCharacter _ _ _ _ _ hmem
        have hw : w = (⟨pos.X + pf.data.AreaOrigin.X, pos.Y + pf.data.AreaOrigin.Y⟩ :
            Position) := by
          cases heq
          rfl
        simp only [Bool.and_eq_true, Bool.not_eq_true'] at hcond
        refine ⟨hcond.1.1.1, hcond.1.1.2, hcond.1.2, ?_⟩
        rw [hw]
        exact hcond.2
      case isFalse hcond =>
        obtain ⟨-, -, ps, rest, -, heq⟩ := teleport_mem_MoveCharacter _ _ _ _ _ hmem
        exact absurd heq (by simp)
  refine ⟨key, ?_, ?_⟩
  · intro w hnear hmem
    have h := (key w hmem).2.2.2
    rw [h] at hnear
    exact absurd hnear (by simp)
  · intro hct hne
    rw [moveThroughPathTeleport, teleScan_eq_filter] at hne ⊢
    set o := ((List.reverse p).filter (onScreenOk pf (Path.From p))).head? with ho
    clear_value o
    cases o with
    | none =>
      simp at hne
    | some pos =>
      simp only [Option.elim, teleportCastAt] at hne ⊢
      split
      case isTrue hcond =>
        left
        refine ⟨⟨pos.X + pf.data.AreaOrigin.X, pos.Y + pf.data.AreaOrigin.Y⟩, ?_⟩
        simp only [Bool.and_eq_true, Bool.not_eq_true'] at hcond
        obtain ⟨ps, hsend⟩ := Option.isSome_iff_exists.mp hcond.1.1.2
        simp only [MoveCharacter, hct, hsend, hcond.1.1.1, if_true]
        exact List.mem_append_right _ (List.mem_cons_self _ _)
      case isFalse hcond =>
        right
        refine ⟨(gameCoordsToScreenCords pf (Path.From p).X (Path.From p).Y pos.X pos.Y).1,
          (gameCoordsToScreenCords pf (Path.From p).X (Path.From p).Y pos.X pos.Y).2, ?_⟩
        cases hsend : pf.packetSender with
        | none => simp [MoveCharacter, hct, hsend]
        | some ps => simp [MoveCharacter, hct, hsend]

/-- Witness for C3: in a concrete packet-enabled scenario the planner does
issue a packet teleport, and the gating conditions then hold at the
teleported world position. -/
theorem c3_packet_teleport_gating_witness :
    isNearAreaBoundary pfPacketErr ⟨100, 100⟩ 60 = false ∧
      isMouseClickTeleportZone pfPacketErr = false :=
  have h := (c3_packet_teleport_gating pfPacketErr [⟨0, 0⟩]).1 ⟨100, 100⟩ (by decide)
  ⟨h.2.2.2, h.2.2.1⟩

/-- C8: with a usable grid, `DirectionalMovement` performs exactly the three
candidate passes — radius 5 with the walkability check, radius 10 with the
walkability check, radius 5 without it — over the given direction order: it
returns false with no commands exactly when every candidate of all three
passes fails, and otherwise returns true with the commands of the first
passing candidate, in pass order. -/
theorem c8_directional_three_passes (pf : PathFinder) (dirs : List (Int × Int))
    (hgrid : gridPresent pf = true) :
    (DirectionalMovement pf dirs = (false, []) ↔
      (∀ d ∈ dirs, attemptMove pf (dirTarget pf.data.PlayerUnit.Position 1 d) true = none) ∧
        (∀ d ∈ dirs, attemptMove pf (dirTarget pf.data.PlayerUnit.Position 2 d) true = none) ∧
        ∀ d ∈ dirs, attemptMove pf (dirTarget pf.data.PlayerUnit.Position 1 d) false = none) ∧
    (∀ cmds,
      List.findSome? (fun d => attemptMove pf (dirTarget pf.data.PlayerUnit.Position 1 d) true)
        dirs = some cmds →
      DirectionalMovement pf dirs = (true, cmds)) ∧
    (∀ cmds,
      List.findSome? (fun d => attemptMove pf (dirTarget pf.data.PlayerUnit.Position 1 d) true)
        dirs = none →
      List.findSome? (fun d => attemptMove pf (dirTarget pf.data.PlayerUnit.Position 2 d) true)
        dirs = some cmds →
      DirectionalMovement pf dirs = (true, cmds)) ∧
    (∀ cmds,
      List.findSome? (fun d => attemptMove pf (dirTarget pf.data.PlayerUnit.Position 1 d) true)
        dirs = none →
      List.findSome? (fun d => attemptMove pf (dirTarget pf.data.PlayerUnit.Position 2 d) true)
        dirs = none →
      List.findSome? (fun d => attemptMove pf (dirTarget pf.data.PlayerUnit.Position 1 d) false)
        dirs = some cmds →
      DirectionalMovement pf dirs = (true, cmds)) := by
  have hcond : ¬(gridPresent pf = false) := by simp [hgrid]
  refine ⟨?_, ?_, ?_, ?_⟩
  · rw [show DirectionalMovement pf dirs =
        (match List.findSome?
            (fun d => attemptMove pf (dirTarget pf.data.PlayerUnit.Position 1 d) true) dirs with
          | some cmds => (true, cmds)
          | none =>
            match List.findSome?
                (fun d => attemptMove pf (dirTarget pf.data.PlayerUnit.Position 2 d) true) dirs with
            | some cmds => (true, cmds)
            | none =>
              match List.findSome?
                  (fun d => attemptMove pf (dirTarget pf.data.PlayerUnit.Position 1 d) false)
                  dirs with
              | some cmds => (true, cmds)
              | none => (false, [])) from by
      simp only [DirectionalMovement, if_neg hcond]]
    cases h1 : List.findSome?
        (fun d => attemptMove pf (dirTarget pf.data.PlayerUnit.Position 1 d) true) dirs with
    | some c =>
      simp only [List.findSome?_eq_none_iff] at h1 ⊢
      constructor
      · intro h
        exact absurd h (by simp)
      · rintro ⟨ha, -, -⟩
        obtain ⟨d, hd, hsome⟩ := List.exists_of_findSome?_eq_some h1
        rw [ha d hd] at hsome
        exact absurd hsome (by simp)
    | none =>
      cases h2 : List.findSome?
          (fun d => attemptMove pf (dirTarget pf.data.PlayerUnit.Position 2 d) true) dirs with
      | some c =>
        constructor
        · intro h
          exact absurd h (by simp)
        · rintro ⟨-, hb, -⟩
          obtain ⟨d, hd, hsome⟩ := List.exists_of_findSome?_eq_some h2
          rw [hb d hd] at hsome
          exact absurd hsome (by simp)
      | none =>
        cases h3 : List.findSome?
            (fun d => attemptMove pf (dirTarget pf.data.PlayerUnit.Position 1 d) false) dirs with
        | some c =>
          constructor
          · intro h
            exact absurd h (by simp)
          · rintro ⟨-, -, hc⟩
            obtain ⟨d, hd, hsome⟩ := List.exists_of_findSome?_eq_some h3
            rw [hc d hd] at hsome
            exact absurd hsome (by simp)
        | none =>
          rw [List.findSome?_eq_none_iff] at h1 h2 h3
          simp only [true_iff, iff_true]
          exact ⟨h1, h2, h3⟩
  · intro cmds h1
    simp only [DirectionalMovement, if_neg hcond, h1]
  · intro cmds h1 h2
    simp only [DirectionalMovement, if_neg hcond, h1, h2]
  · intro cmds h1 h2 h3
    simp only [DirectionalMovement, if_neg hcond, h1, h2, h3]

/-- A concrete state with a usable grid but a degenerate (zero-size)
viewport, on which every directional candidate fails the bound checks. -/
def pfTinyScreen : PathFinder :=
  { gr := ⟨0, 0⟩
    data :=
      { PlayerUnit := ⟨⟨0, 0⟩, .Other 1, 0⟩
        AreaData := ⟨some ⟨some (fun _ => true), 0, 0, 10, 10⟩⟩
        AreaOrigin := ⟨0, 0⟩
        Rooms := []
        CanTeleport := false
        PlayerCastDurationMs := 250
        KeyBindings := ⟨0, 0⟩ }
    cfg := ⟨⟨false, false⟩⟩
    packetSender := none }

/-- Witness for C8: on the degenerate viewport all three passes fail and no
movement is performed. -/
theorem c8_directional_three_passes_witness :
    DirectionalMovement pfTinyScreen directions = (false, []) :=
  (c8_directional_three_passes pfTinyScreen directions rfl).1.mpr (by decide)

/-- Bresenham loop invariant: writing the state with `i` remaining x-steps
and `j` remaining y-steps (so `x = D.X - sx*i`, `y = D.Y - sy*j` and the
accumulated error is `dx - dy + i*dy - j*dx`), every iteration with the
loop still running decreases `i + j` by at least one and keeps `i ≤ dx`,
`j ≤ dy`; hence fuel exceeding `i + j` never runs out. -/
theorem losLoop_ne_none (walkable : Position → Bool) (D : Position) (sx sy : Int)
    (dxN dyN : Nat) :
    ∀ (fuel i j : Nat), i ≤ dxN → j ≤ dyN → i + j < fuel →
      losLoop walkable D sx sy (dxN : Int) (dyN : Int) fuel
        (D.X - sx * (i : Int)) (D.Y - sy * (j : Int))
        ((dxN : Int) - (dyN : Int) + (i : Int) * (dyN : Int) - (j : Int) * (dxN : Int)) ≠
        none := by
  intro fuel
  induction fuel with
  | zero => intro i j _ _ h; omega
  | succ fuel ih =>
    intro i j hi hj hlt
    rw [losLoop]
    by_cases hw : walkable ⟨D.X - sx * (i : Int), D.Y - sy * (j : Int)⟩ = false
    · rw [if_pos hw]
      simp
    · rw [if_neg hw]
      by_cases hD : D.X - sx * (i : Int) = D.X ∧ D.Y - sy * (j : Int) = D.Y
      · rw [if_pos hD]
        simp
      · rw [if_neg hD]
        have hij : i ≠ 0 ∨ j ≠ 0 := by
          by_contra h
          push_neg at h
          refine hD ?_
          rw [h.1, h.2]
          constructor <;> push_cast <;> ring
        by_cases hc1 : 2 * ((dxN : Int) - (dyN : Int) + (i : Int) * (dyN : Int) -
            (j : Int) * (dxN : Int)) > -(dyN : Int)
        · have hi1 : 1 ≤ i := by
            rcases Nat.eq_zero_or_pos i with hz | hp
            · exfalso
              subst hz
              have hj1 : 1 ≤ j := by
                rcases hij with h | h
                · exact absurd rfl h
                · omega
              have hdy1 : (1 : Int) ≤ (dyN : Int) := by omega
              have hprod : (dxN : Int) ≤ (j : Int) * (dxN : Int) :=
                le_mul_of_one_le_left (by positivity) (by omega)
              push_cast at hc1
              linarith
            · omega
          by_cases hc2 : 2 * ((dxN : Int) - (dyN : Int) + (i : Int) * (dyN : Int) -
              (j : Int) * (dxN : Int)) < (dxN : Int)
          · have hj1 : 1 ≤ j := by
              rcases Nat.eq_zero_or_pos j with hz | hp
              · exfalso
                subst hz
                have hdx1 : (1 : Int) ≤ (dxN : Int) := by omega
                have hprod : (dyN : Int) ≤ (i : Int) * (dyN : Int) :=
                  le_mul_of_one_le_left (by positivity) (by omega)
                push_cast at hc2
                linarith
              · omega
            simp only [if_pos hc1, if_pos hc2]
            have ex : D.X - sx * (i : Int) + sx = D.X - sx * ((i - 1 : Nat) : Int) := by
              push_cast [Nat.cast_sub hi1]
              ring
            have ey : D.Y - sy * (j : Int) + sy = D.Y - sy * ((j - 1 : Nat) : Int) := by
              push_cast [Nat.cast_sub hj1]
              ring
            have ee : ((dxN : Int) - (dyN : Int) + (i : Int) * (dyN : Int) -
                (j : Int) * (dxN : Int)) - (dyN : Int) + (dxN : Int) =
                (dxN : Int) - (dyN : Int) + ((i - 1 : Nat) : Int) * (dyN : Int) -
                  ((j - 1 : Nat) : Int) * (dxN : Int) := by
              push_cast [Nat.cast_sub hi1, Nat.cast_sub hj1]
              ring
            rw [ex, ey, ee]
            exact ih (i - 1) (j - 1) (by omega) (by omega) (by omega)
          · simp only [if_pos hc1, if_neg hc2]
            have ex : D.X - sx * (i : Int) + sx = D.X - sx * ((i - 1 : Nat) : Int) := by
              push_cast [Nat.cast_sub hi1]
              ring
            have ee : ((dxN : Int) - (dyN : Int) + (i : Int) * (dyN : Int) -
                (j : Int) * (dxN : Int)) - (dyN : Int) =
                (dxN : Int) - (dyN : Int) + ((i - 1 : Nat) : Int) * (dyN : Int) -
                  (j : Int) * (dxN : Int) := by
              push_cast [Nat.cast_sub hi1]
              ring
            rw [ex, ee]
            exact ih (i - 1) j (by omega) hj (by omega)
        · by_cases hc2 : 2 * ((dxN : Int) - (dyN : Int) + (i : Int) * (dyN : Int) -
              (j : Int) * (dxN : Int)) < (dxN : Int)
          · have hj1 : 1 ≤ j := by
              rcases Nat.eq_zero_or_pos j with hz | hp
              · exfalso
                subst hz
                have hi1 : 1 ≤ i := by
                  rcases hij with h | h
                  · omega
                  · exact absurd rfl h
                have hdx1 : (1 : Int) ≤ (dxN : Int) := by omega
                have hprod : (dyN : Int) ≤ (i : Int) * (dyN : Int) :=
                  le_mul_of_one_le_left (by positivity) (by omega)
                push_cast at hc2
                linarith
              · omega
            simp only [if_neg hc1, if_pos hc2]
            have ey : D.Y - sy * (j : Int) + sy = D.Y - sy * ((j - 1 : Nat) : Int) := by
              push_cast [Nat.cast_sub hj1]
              ring
            have ee : ((dxN : Int) - (dyN : Int) + (i : Int) * (dyN : Int) -
                (j : Int) * (dxN : Int)) + (dxN : Int) =
                (dxN : Int) - (dyN : Int) + (i : Int) * (dyN : Int) -
                  ((j - 1 : Nat) : Int) * (dxN : Int) := by
              push_cast [Nat.cast_sub hj1]
              ring
            rw [ey, ee]
            exact ih i (j - 1) hi (by omega) (by omega)
          · exfalso
            push_neg at hc1 hc2
            have hle : (dxN : Int) ≤ -(dyN : Int) := le_trans hc2 hc1
            rcases hij with h | h <;> omega

/-- C10: for every walkability predicate and every pair of endpoints, the
`LineOfSight` stepping loop terminates with a boolean within its canonical
fuel `|dx| + |dy| + 1`: each iteration either returns or strictly advances
`x` toward `destination.X` or `y` toward `destination.Y`. -/
theorem c10_line_of_sight_terminates (walkable : Position → Bool)
    (origin destination : Position) :
    ∃ b : Bool, LineOfSightRun walkable origin destination = some b := by
  rw [← Option.ne_none_iff_exists']
  show LineOfSight walkable origin destination
    ((destination.X - origin.X).natAbs + (destination.Y - origin.Y).natAbs + 1) ≠ none
  simp only [LineOfSight]
  have key := losLoop_ne_none walkable destination
    (if origin.X > destination.X then (-1 : Int) else 1)
    (if origin.Y > destination.Y then (-1 : Int) else 1)
    (destination.X - origin.X).natAbs (destination.Y - origin.Y).natAbs
    ((destination.X - origin.X).natAbs + (destination.Y - origin.Y).natAbs + 1)
    (destination.X - origin.X).natAbs (destination.Y - origin.Y).natAbs
    le_rfl le_rfl (by omega)
  have ex : destination.X - (if origin.X > destination.X then (-1 : Int) else 1) *
      (((destination.X - origin.X).natAbs : Nat) : Int) = origin.X := by
    split_ifs with h <;> omega
  have ey : destination.Y - (if origin.Y > destination.Y then (-1 : Int) else 1) *
      (((destination.Y - origin.Y).natAbs : Nat) : Int) = origin.Y := by
    split_ifs with h <;> omega
  have ee : (((destination.X - origin.X).natAbs : Nat) : Int) -
      (((destination.Y - origin.Y).natAbs : Nat) : Int) =
      (((destination.X - origin.X).natAbs : Nat) : Int) -
        (((destination.Y - origin.Y).natAbs : Nat) : Int) +
        (((destination.X - origin.X).natAbs : Nat) : Int) *
          (((destination.Y - origin.Y).natAbs : Nat) : Int) -
        (((destination.Y - origin.Y).natAbs : Nat) : Int) *
          (((destination.X - origin.X).natAbs : Nat) : Int) := by
    ring
  rw [ex, ey] at key
  rw [ee]
  exact key

/-- A fold keeping the last room that contains the player leaves the
accumulator unchanged when no room of the list contains the player. -/
theorem findCurrentRoom_aux_none (p : Position) :
    ∀ (l : List Room) (acc : Room), (∀ r ∈ l, r.IsInside p = false) →
      l.foldl (fun acc r => if r.IsInside p then r else acc) acc = acc := by
  intro l
  induction l with
  | nil => intro acc _; rfl
  | cons a l ih =>
    intro acc h
    have ha := h a (List.mem_cons_self a l)
    simp only [List.foldl_cons]
    rw [if_neg (by simp [ha])]
    exact ih acc (fun r hr => h r (List.mem_cons_of_mem a hr))

/-- When some room of the list contains the player, the fold returns a room
of the list that contains the player. -/
theorem findCurrentRoom_aux (p : Position) :
    ∀ (l : List Room) (acc : Room), (∃ r ∈ l, r.IsInside p = true) →
      l.foldl (fun acc r => if r.IsInside p then r else acc) acc ∈ l ∧
        (l.foldl (fun acc r => if r.IsInside p then r else acc) acc).IsInside p = true := by
  intro l
  induction l with
  | nil =>
    rintro acc ⟨r, hr, -⟩
    exact absurd hr (List.not_mem_nil r)
  | cons a l ih =>
    intro acc hex
    simp only [List.foldl_cons]
    by_cases ha : a.IsInside p = true
    · rw [if_pos ha]
      by_cases hl : ∃ r ∈ l, r.IsInside p = true
      · obtain ⟨h1, h2⟩ := ih a hl
        exact ⟨List.mem_cons_of_mem a h1, h2⟩
      · push_neg at hl
        have hnone : ∀ r ∈ l, r.IsInside p = false := by
          intro r hr
          simpa using hl r hr
        rw [findCurrentRoom_aux_none p l a hnone]
        exact ⟨List.mem_cons_self a l, ha⟩
    · rw [if_neg ha]
      have hex' : ∃ r ∈ l, r.IsInside p = true := by
        obtain ⟨r, hr, hrin⟩ := hex
        rcases List.mem_cons.mp hr with rfl | hr'
        · exact absurd hrin ha
        · exact ⟨r, hr', hrin⟩
      obtain ⟨h1, h2⟩ := ih acc hex'
      exact ⟨List.mem_cons_of_mem a h1, h2⟩

/-- `findCurrentRoom` returns a room of the list containing the player,
provided one exists. -/
theorem findCurrentRoom_spec (rooms : List Room) (p : Position)
    (hex : ∃ r ∈ rooms, r.IsInside p = true) :
    findCurrentRoom rooms p ∈ rooms ∧ (findCurrentRoom rooms p).IsInside p = true := by
  unfold findCurrentRoom
  exact findCurrentRoom_aux p rooms Room.empty hex

/-- Every matrix entry is below `math.MaxInt` when all pairwise distances
are. -/
theorem matrixLookup_lt (rooms : List Room)
    (hdist : ∀ r1 ∈ rooms, ∀ r2 ∈ rooms,
      DistanceFromPoint r1.GetCenter r2.GetCenter < maxInt)
    (c r : Room) : matrixLookup rooms c r < maxInt := by
  unfold matrixLookup
  split_ifs with h1 h2
  · norm_num [maxInt]
  · exact hdist c h1.1 r h1.2
  · norm_num [maxInt]

/-- The running minimum of the nearest-unvisited fold never increases. -/
theorem nuFold_snd_le (rooms visited : List Room) (current : Room) :
    ∀ (l : List Room) (acc : Room × Int),
      (l.foldl (fun acc room =>
        if room ∉ visited ∧ matrixLookup rooms current room < acc.2 then
          (room, matrixLookup rooms current room)
        else acc) acc).2 ≤ acc.2 := by
  intro l
  induction l with
  | nil => intro acc; exact le_rfl
  | cons a l ih =>
    intro acc
    simp only [List.foldl_cons]
    by_cases h : a ∉ visited ∧ matrixLookup rooms current a < acc.2
    · rw [if_pos h]
      exact le_trans (ih _) (le_of_lt h.2)
    · rw [if_neg h]
      exact ih acc

/-- After the fold has seen an unvisited room, its running minimum is at
most that room's matrix distance. -/
theorem nuFold_le_of_mem (rooms visited : List Room) (current : Room) :
    ∀ (l : List Room) (acc : Room × Int) (r : Room), r ∈ l → r ∉ visited →
      (l.foldl (fun acc room =>
        if room ∉ visited ∧ matrixLookup rooms current room < acc.2 then
          (room, matrixLookup rooms current room)
        else acc) acc).2 ≤ matrixLookup rooms current r := by
  intro l
  induction l with
  | nil =>
    intro acc r hr
    exact absurd hr (List.not_mem_nil r)
  | cons a l ih =>
    intro acc r hr hnv
    simp only [List.foldl_cons]
    rcases List.mem_cons.mp hr with rfl | hr'
    · by_cases h : r ∉ visited ∧ matrixLookup rooms current r < acc.2
      · rw [if_pos h]
        exact nuFold_snd_le rooms visited current l _
      · rw [if_neg h]
        have hge : acc.2 ≤ matrixLookup rooms current r := by
          by_contra hlt
          exact h ⟨hnv, lt_of_not_ge hlt⟩
        exact le_trans (nuFold_snd_le rooms visited current l acc) hge
    · exact ih _ r hr' hnv

/-- Whenever the fold's running minimum drops below its `math.MaxInt` seed,
the accompanying room is an unvisited room of the list. -/
theorem nuFold_sound (rooms visited : List Room) (current : Room) :
    ∀ (l : List Room) (acc : Room × Int), (∀ r ∈ l, r ∈ rooms) →
      (acc.2 < maxInt → acc.1 ∈ rooms ∧ acc.1 ∉ visited) →
      ((l.foldl (fun acc room =>
          if room ∉ visited ∧ matrixLookup rooms current room < acc.2 then
            (room, matrixLookup rooms current room)
          else acc) acc).2 < maxInt →
        (l.foldl (fun acc room =>
          if room ∉ visited ∧ matrixLookup rooms current room < acc.2 then
            (room, matrixLookup rooms current room)
          else acc) acc).1 ∈ rooms ∧
          (l.foldl (fun acc room =>
            if room ∉ visited ∧ matrixLookup rooms current room < acc.2 then
              (room, matrixLookup rooms current room)
            else acc) acc).1 ∉ visited) := by
  intro l
  induction l with
  | nil => intro acc _ hacc; exact hacc
  | cons a l ih =>
    intro acc hsub hacc
    simp only [List.foldl_cons]
    by_cases h : a ∉ visited ∧ matrixLookup rooms current a < acc.2
    · rw [if_pos h]
      exact ih _ (fun r hr => hsub r (List.mem_cons_of_mem a hr))
        (fun _ => ⟨hsub a (List.mem_cons_self a l), h.1⟩)
    · rw [if_neg h]
      exact ih acc (fun r hr => hsub r (List.mem_cons_of_mem a hr)) hacc

/-- When an unvisited room exists and all distances are below `math.MaxInt`,
the inner greedy search returns an unvisited room of the list. -/
theorem nearestUnvisited_spec (rooms visited : List Room) (current : Room)
    (hdist : ∀ r1 ∈ rooms, ∀ r2 ∈ rooms,
      DistanceFromPoint r1.GetCenter r2.GetCenter < maxInt)
    (hex : ∃ r ∈ rooms, r ∉ visited) :
    (nearestUnvisited rooms visited current).1 ∈ rooms ∧
      (nearestUnvisited rooms visited current).1 ∉ visited := by
  obtain ⟨r, hr, hnv⟩ := hex
  have hlk : matrixLookup rooms current r < maxInt := matrixLookup_lt rooms hdist current r
  have hle := nuFold_le_of_mem rooms visited current rooms (Room.empty, maxInt) r hr hnv
  exact nuFold_sound rooms visited current rooms (Room.empty, maxInt) (fun _ h => h)
    (fun h => absurd h (lt_irrefl _)) (lt_of_le_of_lt hle hlk)

/-- The greedy loop only ever appends to the visit order. -/
theorem traverseLoop_prefix (rooms : List Room) :
    ∀ (n : Nat) (current : Room) (order visited : List Room),
      ∃ t, traverseLoop rooms n current order visited = order ++ t := by
  intro n
  induction n with
  | zero =>
    intro c order v
    exact ⟨[], (List.append_nil order).symm⟩
  | succ n ih =>
    intro c order v
    rw [traverseLoop]
    by_cases h : order.length < rooms.length
    · rw [if_pos h]
      obtain ⟨t, ht⟩ := ih (nearestUnvisited rooms v c).1
        (order ++ [(nearestUnvisited rooms v c).1]) (v ++ [(nearestUnvisited rooms v c).1])
      rw [ht, List.append_assoc]
      exact ⟨_, rfl⟩
    · rw [if_neg h]
      exact ⟨[], (List.append_nil order).symm⟩

/-- Invariant of the greedy loop when visited and order coincide: starting
from a duplicate-free partial order of rooms with enough fuel, the loop
returns a duplicate-free list of rooms of full length. -/
theorem traverseLoop_invariant (rooms : List Room) (hrnd : rooms.Nodup)
    (hdist : ∀ r1 ∈ rooms, ∀ r2 ∈ rooms,
      DistanceFromPoint r1.GetCenter r2.GetCenter < maxInt) :
    ∀ (n : Nat) (current : Room) (order : List Room),
      order.Nodup → (∀ r ∈ order, r ∈ rooms) →
      order.length ≤ rooms.length → rooms.length ≤ order.length + n →
      (traverseLoop rooms n current order order).Nodup ∧
        (∀ r ∈ traverseLoop rooms n current order order, r ∈ rooms) ∧
        (traverseLoop rooms n current order order).length = rooms.length := by
  intro n
  induction n with
  | zero =>
    intro c order hnd hsub hle hge
    rw [traverseLoop]
    exact ⟨hnd, hsub, by omega⟩
  | succ n ih =>
    intro c order hnd hsub hle hge
    rw [traverseLoop]
    by_cases h : order.length < rooms.length
    · rw [if_pos h]
      have hex : ∃ r ∈ rooms, r ∉ order := by
        by_contra hc
        push_neg at hc
        have hsp := (hrnd.subperm (fun {a} ha => hc a ha)).length_le
        omega
      obtain ⟨hmem, hnv⟩ := nearestUnvisited_spec rooms order c hdist hex
      have hnd' : (order ++ [(nearestUnvisited rooms order c).1]).Nodup := by
        rw [List.nodup_append]
        refine ⟨hnd, List.nodup_singleton _, ?_⟩
        intro a ha hb
        rw [List.mem_singleton] at hb
        subst hb
        exact hnv ha
      have hsub' : ∀ r ∈ order ++ [(nearestUnvisited rooms order c).1], r ∈ rooms := by
        intro r hr
        rcases List.mem_append.mp hr with h' | h'
        · exact hsub r h'
        · rw [List.mem_singleton] at h'
          subst h'
          exact hmem
      have hlen' : (order ++ [(nearestUnvisited rooms order c).1]).length =
          order.length + 1 := by
        simp
      exact ih (nearestUnvisited rooms order c).1 _ hnd' hsub' (by omega) (by omega)
    · rw [if_neg h]
      exact ⟨hnd, hsub, by omega⟩

/-- A duplicate-free list of rooms drawn from `rooms` with full length is a
permutation of `rooms`. -/
theorem perm_of_nodup_subset_length (l rooms : List Room) (hnd : l.Nodup)
    (hsub : ∀ r ∈ l, r ∈ rooms) (hlen : l.length = rooms.length) :
    l.Perm rooms := by
  obtain ⟨m, hm, hsl⟩ := hnd.subperm (fun {a} ha => hsub a ha)
  have hml : m.length = rooms.length := by
    rw [hm.length_eq, hlen]
  rw [← hsl.eq_of_length hml]
  exact hm.symm

/-- C2 (amended): provided the rooms are pairwise distinct, every pairwise
centre distance is below `math.MaxInt`, and the player is inside at least
one room, `OptimizeRoomsTraverseOrder` returns a permutation of the rooms
whose first element is the room the source selects as containing the player
(the last such room in input order), and that room does contain the
player. -/
theorem c2_room_order_permutation (rooms : List Room) (playerPos : Position)
    (hnd : rooms.Nodup)
    (hin : ∃ r ∈ rooms, r.IsInside playerPos = true)
    (hdist : ∀ r1 ∈ rooms, ∀ r2 ∈ rooms,
      DistanceFromPoint r1.GetCenter r2.GetCenter < maxInt) :
    (OptimizeRoomsTraverseOrder rooms playerPos).Perm rooms ∧
      (OptimizeRoomsTraverseOrder rooms playerPos).head? =
        some (findCurrentRoom rooms playerPos) ∧
      (findCurrentRoom rooms playerPos).IsInside playerPos = true := by
  obtain ⟨hcm, hcin⟩ := findCurrentRoom_spec rooms playerPos hin
  have hlen1 : 1 ≤ rooms.length := by
    obtain ⟨r, hr, -⟩ := hin
    exact List.length_pos.mpr (List.ne_nil_of_mem hr)
  have hinv := traverseLoop_invariant rooms hnd hdist rooms.length
    (findCurrentRoom rooms playerPos) [findCurrentRoom rooms playerPos]
    (List.nodup_singleton _)
    (by
      intro r hr
      rw [List.mem_singleton] at hr
      subst hr
      exact hcm)
    (by simpa using hlen1)
    (by simp)
  refine ⟨?_, ?_, hcin⟩
  · exact perm_of_nodup_subset_length _ rooms hinv.1 hinv.2.1 hinv.2.2
  · obtain ⟨t, ht⟩ := traverseLoop_prefix rooms rooms.length
      (findCurrentRoom rooms playerPos) [findCurrentRoom rooms playerPos]
      [findCurrentRoom rooms playerPos]
    show (traverseLoop rooms rooms.length (findCurrentRoom rooms playerPos)
      [findCurrentRoom rooms playerPos] [findCurrentRoom rooms playerPos]).head? = _
    rw [ht]
    rfl

/-- Counterexample to C2 as stated: with a single room and the player
outside it, the traversal order is the zero-value room, not a permutation of
the input rooms (the input room never appears). -/
theorem c2_counterexample_player_outside :
    OptimizeRoomsTraverseOrder [⟨0, 0, 2, 2⟩] ⟨10, 10⟩ = [⟨0, 0, 0, 0⟩] ∧
      ¬(OptimizeRoomsTraverseOrder [⟨0, 0, 2, 2⟩] ⟨10, 10⟩).Perm [⟨0, 0, 2, 2⟩] := by
  constructor
  · decide
  · decide

/-- A concrete pair of distinct rooms with the player inside the first. -/
def roomsW : List Room := [⟨0, 0, 2, 2⟩, ⟨4, 0, 2, 2⟩]

/-- Witness for C2 at the concrete rooms. -/
theorem c2_room_order_permutation_witness :
    (OptimizeRoomsTraverseOrder roomsW ⟨1, 1⟩).Perm roomsW ∧
      (OptimizeRoomsTraverseOrder roomsW ⟨1, 1⟩).head? =
        some (findCurrentRoom roomsW ⟨1, 1⟩) ∧
      (findCurrentRoom roomsW ⟨1, 1⟩).IsInside ⟨1, 1⟩ = true :=
  c2_room_order_permutation roomsW ⟨1, 1⟩ (by decide) (by decide) (by decide)

end Pather
